import Mathlib

/-!
Shallow embedding of the Carnot consensus core of this repository
(consensus service `nomos-services/consensus/src/lib.rs`, its happy-path
vote tally `tally/happy.rs`, the wire messages `network/messages.rs`, and
the simulation event builder `simulations/src/node/carnot/event_builder.rs`),
together with theorems settling the specification claims about them.

Machine integers (`i64` views, `usize` thresholds) are embedded as `Int`
and `Nat`; the values involved never overflow in the modelled paths.
Rust `HashMap`s are embedded as association lists, `HashSet`s as `Finset`s,
asynchronous streams as lists of the items they yield, and the view-keyed
task manager as a list of (view, task-descriptor) pairs.
-/

/-- Association-list lookup, embedding `HashMap::get`. -/
def alookup {κ β : Type} [DecidableEq κ] : List (κ × β) → κ → Option β
  | [], _ => none
  | (k, v) :: rest, key => if k = key then some v else alookup rest key

/-- Association-list update-or-insert, embedding an occupied-entry write. -/
def aupdate {κ β : Type} [DecidableEq κ] : List (κ × β) → κ → β → List (κ × β)
  | [], key, v => [(key, v)]
  | (k, w) :: rest, key, v =>
    if k = key then (k, v) :: rest else (k, w) :: aupdate rest key v

/-- Association-list removal, embedding `HashMap::remove`. -/
def aerase {κ β : Type} [DecidableEq κ] : List (κ × β) → κ → List (κ × β)
  | [], _ => []
  | (k, w) :: rest, key => if k = key then rest else (k, w) :: aerase rest key

/-- The per-view accumulator cache of the simulation `Tally<T>`
(`simulations/src/node/carnot/event_builder.rs`): a map from `View` to the
`HashSet` of messages accumulated for that view. -/
abbrev TallyCache (T : Type) [DecidableEq T] := List (Int × Finset T)

/-- Embedding of `Tally::tally_by` from
`simulations/src/node/carnot/event_builder.rs` (lines 219-234).  The Rust
code runs `self.cache.entry(view).and_modify(|e| { e.insert(message); })
.or_default().len()`: when the view is already present the message is
inserted, when it is vacant `or_default` creates an empty set and the
message is NOT inserted.  If the resulting entry length reaches the
threshold the entry is removed and returned, otherwise `None`. -/
def Tally.tally_by {T : Type} [DecidableEq T]
    (cache : TallyCache T) (view : Int) (message : T) (threshold : Nat) :
    Option (Finset T) × TallyCache T :=
  let cache1 : TallyCache T :=
    match alookup cache view with
    | some entry => aupdate cache view (insert message entry)
    | none => cache ++ [(view, (∅ : Finset T))]
  let entries := ((alookup cache1 view).getD ∅).card
  if threshold ≤ entries then
    (some ((alookup cache1 view).getD ∅), aerase cache1 view)
  else
    (none, cache1)

/-- `consensus_engine::StandardQc`: a standard quorum certificate. -/
structure StandardQc where
  view : Int
  id : Nat
deriving DecidableEq

/-- `consensus_engine::AggregateQc`: the aggregated (timeout-recovery) QC. -/
structure AggregateQc where
  high_qc : StandardQc
  view : Int
deriving DecidableEq

/-- `consensus_engine::Qc`: tagged union of the two QC forms. -/
inductive Qc
  | standard (qc : StandardQc)
  | aggregated (qc : AggregateQc)
deriving DecidableEq

/-- `Qc::view()`. -/
def Qc.view : Qc → Int
  | .standard qc => qc.view
  | .aggregated qc => qc.view

/-- `Qc::block()`: the block a QC certifies (for an aggregated QC, the block
of its embedded high QC). -/
def Qc.block : Qc → Nat
  | .standard qc => qc.id
  | .aggregated qc => qc.high_qc.id

/-- `consensus_engine::Vote` as used by the vote tally: the voted view and
block id. -/
structure Vote where
  view : Int
  block : Nat
deriving DecidableEq

/-- `VoteMsg` from `consensus/src/network/messages.rs` (lines 26-31): the
wire form of a vote, with an optional QC field. -/
structure VoteMsg where
  voter : Nat
  vote : Vote
  qc : Option Qc
deriving DecidableEq

/-- `consensus_engine::Timeout` as used by `process_root_timeout`. -/
structure Timeout where
  view : Int
  high_qc : StandardQc
  sender : Nat
deriving DecidableEq

/-- `consensus_engine::TimeoutQc` `{view, high_qc, sender}`. -/
structure TimeoutQc where
  view : Int
  high_qc : StandardQc
  sender : Nat
deriving DecidableEq

/-- `consensus_engine::NewView`. -/
structure NewView where
  view : Int
  timeout_qc : TimeoutQc
  high_qc : StandardQc
  sender : Nat
deriving DecidableEq

/-- `TimeoutMsg` from `consensus/src/network/messages.rs`. -/
structure TimeoutMsg where
  voter : Nat
  vote : Timeout
deriving DecidableEq

/-- `NewViewMsg` from `consensus/src/network/messages.rs`. -/
structure NewViewMsg where
  voter : Nat
  vote : NewView
deriving DecidableEq

/-- `TimeoutQcMsg` from `consensus/src/network/messages.rs`. -/
structure TimeoutQcMsg where
  source : Nat
  qc : TimeoutQc
deriving DecidableEq

/-- `ProposalChunkMsg` from `consensus/src/network/messages.rs`. -/
structure ProposalChunkMsg where
  chunk : List Nat
  proposal : Nat
  view : Int
deriving DecidableEq

/-- `consensus_engine::Block` (header): id, view, parent QC and the leader
proof (abstracted to the proving leader id). -/
structure Block where
  id : Nat
  view : Int
  parent_qc : Qc
  leader_proof : Nat
deriving DecidableEq

/-- A full proposal block as the output dispatcher sees it: its header data
and its wire bytes (fed to the fountain encoder). -/
structure Proposal where
  id : Nat
  view : Int
  bytes : List Nat
deriving DecidableEq

/-- `consensus_engine::Payload`: payload of a committee-directed send. -/
inductive Payload
  | vote (v : Vote)
  | timeout (t : Timeout)
  | new_view (n : NewView)
deriving DecidableEq

/-- The `Output` enum of `consensus/src/lib.rs` (lines 269-275); the first
argument of `send` is the source's `to` committee (`to` is reserved in
Lean). -/
inductive Output
  | send (dest : Finset Nat) (payload : Payload)
  | broadcast_timeout_qc (timeout_qc : TimeoutQc)
  | broadcast_proposal (proposal : Proposal)
deriving DecidableEq

/-- `NetworkMessage` from the consensus network adapter. -/
inductive NetworkMessage
  | vote (m : VoteMsg)
  | timeout (m : TimeoutMsg)
  | new_view (m : NewViewMsg)
  | proposal_chunk (m : ProposalChunkMsg)
  | timeout_qc (m : TimeoutQcMsg)
deriving DecidableEq

/-- `CarnotTallySettings` (declared in the consensus service tally module;
its fields are fixed by every construction site in `consensus/src/lib.rs`):
the vote threshold and the set of nodes allowed to vote. -/
structure CarnotTallySettings where
  threshold : Nat
  participating_nodes : Finset Nat
deriving DecidableEq

/-- `CarnotTallyError` from `consensus/src/tally/happy.rs` (lines 17-25). -/
inductive CarnotTallyError
  | invalid_vote
  | insufficient_votes
  | stream_ended
deriving DecidableEq

/-- The vote-stream loop of `CarnotTally::tally`
(`consensus/src/tally/happy.rs` lines 62-90), with the `seen` voter set and
the `outcome` vote set as explicit accumulators and the stream as the list
of votes it yields. -/
def tally_loop (settings : CarnotTallySettings) (block : Block) :
    Finset Nat → Finset Vote → List VoteMsg →
    Except CarnotTallyError (Qc × Finset Vote)
  | _, _, [] => .error .stream_ended
  | seen, outcome, v :: rest =>
    if v.vote.view ≠ block.view ∨ v.vote.block ≠ block.id then
      tally_loop settings block seen outcome rest
    else if v.voter ∉ settings.participating_nodes then
      tally_loop settings block seen outcome rest
    else
      let seen1 := insert v.voter seen
      let outcome1 := insert v.vote outcome
      if settings.threshold ≤ seen1.card then
        .ok (Qc.standard ⟨v.vote.view, v.vote.block⟩, outcome1)
      else
        tally_loop settings block seen1 outcome1 rest

/-- Embedding of `CarnotTally::tally` from `consensus/src/tally/happy.rs`
(lines 45-93): early `Ok` for a zero threshold, otherwise the stream loop
starting from empty accumulators. -/
def CarnotTally.tally (settings : CarnotTallySettings) (block : Block)
    (votes : List VoteMsg) : Except CarnotTallyError (Qc × Finset Vote) :=
  if settings.threshold = 0 then
    .ok (Qc.standard ⟨block.view, block.id⟩, (∅ : Finset Vote))
  else
    tally_loop settings block ∅ ∅ votes

/-- The local consensus state and overlay queries of `consensus_engine::Carnot`
as consulted by the orchestrator in `consensus/src/lib.rs`.  The
consensus-engine crate itself is not under src/; the fields mirror the spec's
local state (section 3) and overlay interface (section 4.3): committee and
leadership queries are carried as data, `child_nodes` is the flattening
`child_committees().into_iter().flatten()` used at every tally construction
site. -/
structure CarnotState where
  id : Nat
  current_view : Int
  highest_voted_view : Int
  high_qc : StandardQc
  safe_blocks : List (Nat × Block)
  last_view_timeout_qc : Option TimeoutQc
  self_committee : Finset Nat
  root_committee : Finset Nat
  child_nodes : Finset Nat
  super_majority_threshold : Nat
  leader_super_majority_threshold : Nat
  is_member_of_root_committee : Bool
  is_member_of_leaf_committee : Bool
  is_next_leader : Bool
deriving DecidableEq

/-- Descriptors for the view-keyed tasks the orchestrator pushes onto its
task manager (`consensus/src/lib.rs`): the local-timeout timer, the
block / timeout-qc / root-timeout gathers of `process_view_change`, the vote
gathers (follower and leader side), and the same-view proposal-stream
continuation pushed by `process_block`. -/
inductive TaskKind
  | local_timeout (view : Int)
  | block_gather (view : Int)
  | timeout_qc_listen (view : Int)
  | root_timeout_gather (committee : Finset Nat) (view : Int)
      (settings : CarnotTallySettings)
  | vote_gather (committee : Finset Nat) (block : Block)
      (settings : CarnotTallySettings)
  | leader_vote_gather (committee : Finset Nat) (block : Block)
      (settings : CarnotTallySettings)
  | proposal_stream_continue (view : Int)
deriving DecidableEq

/-- The task manager as the list of its in-flight tasks, each keyed by a
view (`consensus/src/task_manager.rs`, declared outside src/; the contract
is fixed by the spec's section 4.5: push enqueues, cancel drops every task
bound to the view). -/
abbrev TaskManager := List (Int × TaskKind)

/-- `TaskManager::cancel(view)`: drops every task keyed by `view`. -/
def TaskManager.cancel (tm : TaskManager) (view : Int) : TaskManager :=
  tm.filter (fun t => t.1 ≠ view)

/-- The ways the orchestrator code can panic: the `assert!` and the
`.expect("empty root committee")` inside `process_root_timeout`. -/
inductive PanicKind
  | assertion_failed
  | expect_empty_root_committee
deriving DecidableEq

/-- `Iterator::max` over views: `None` on an empty iterator, otherwise the
maximum. -/
def iter_max : List Int → Option Int
  | [] => none
  | x :: xs => some (xs.foldl max x)

/-- `Iterator::max_by_key`: `None` on an empty iterator, otherwise a
maximal element, the last one when several tie (Rust keeps the later
element on `key(acc) <= key(next)`). -/
def maxByKeyLast {α : Type} (key : α → Int) : List α → Option α
  | [] => none
  | x :: xs => some (xs.foldl (fun a b => if key a ≤ key b then b else a) x)

/-- Embedding of `CarnotConsensus::process_root_timeout`
(`consensus/src/lib.rs` lines 534-570).  The received timeout set is the
list of timeouts in iteration order.  The early return fires when the
current view differs from the maximum timeout view (`unwrap_or(0)` on an
empty set); the `assert!` that every timeout carries the current view and
the `.expect` on the high-qc maximum are embedded as `Except.error`. -/
def process_root_timeout (c : CarnotState) (timeouts : List Timeout) :
    Except PanicKind (CarnotState × Option Output) :=
  if c.current_view ≠ (iter_max (timeouts.map Timeout.view)).getD 0 then
    .ok (c, none)
  else if ∀ t ∈ timeouts, t.view = c.current_view then
    match maxByKeyLast StandardQc.view
        (timeouts.map Timeout.high_qc ++ [c.high_qc]) with
    | none => .error .expect_empty_root_committee
    | some high_qc =>
      .ok (c,
        if c.is_member_of_root_committee then
          some (Output.broadcast_timeout_qc ⟨c.current_view, high_qc, c.id⟩)
        else none)
  else
    .error .assertion_failed

/-- Modelled from the spec: `consensus_engine::Carnot::receive_block`
(the consensus-engine crate is not under src/).  Spec sections 4.1 and 4.2:
the block is accepted iff its parent QC references a safe block or the
genesis, its view strictly exceeds the parent QC's view, its view is at
least `current_view`, and the safety rule (happy extension or aggregated
timeout recovery) holds; on acceptance the block is stored,
`current_view` is raised to the block's view if greater, and
`local_high_qc` is raised when the parent QC is a Standard QC with a higher
view.  Rejection is non-fatal (`none`). -/
def receive_block (c : CarnotState) (b : Block) : Option CarnotState :=
  let parent_known : Bool :=
    (alookup c.safe_blocks b.parent_qc.block).isSome || b.parent_qc.block == 0
  let safety : Bool :=
    (b.view == b.parent_qc.view + 1) &&
    (match b.parent_qc with
     | .standard _ => true
     | .aggregated aqc => decide (c.high_qc.view ≤ aqc.high_qc.view))
  if parent_known && decide (b.parent_qc.view < b.view) &&
      decide (c.current_view ≤ b.view) && safety then
    some { c with
      safe_blocks := aupdate c.safe_blocks b.id b,
      current_view := max c.current_view b.view,
      high_qc :=
        match b.parent_qc with
        | .standard qc => if c.high_qc.view < qc.view then qc else c.high_qc
        | .aggregated _ => c.high_qc }
  else
    none

/-- Embedding of `CarnotConsensus::process_block`
(`consensus/src/lib.rs` lines 391-467).  The overlay update applied on a
view advance (`Self::update_overlay` with the `on_new_block_received`
hooks; the overlay lives in the consensus-engine crate outside src/) is
passed in as `hook`.  The pushed tasks are returned as descriptors appended
to the task manager; the pinned proposal stream continuation is the
`proposal_stream_continue` descriptor. -/
def process_block (hook : CarnotState → CarnotState) (c : CarnotState)
    (block : Block) (tm : TaskManager) :
    CarnotState × Option Output × TaskManager :=
  if block.view ≤ c.highest_voted_view then
    (c, none, tm)
  else
    let tally_settings : CarnotTallySettings :=
      ⟨c.super_majority_threshold, c.child_nodes⟩
    let leader_tally_settings : CarnotTallySettings :=
      ⟨c.leader_super_majority_threshold, c.root_committee⟩
    let afterReceive :=
      match receive_block c block with
      | some new_state =>
        if new_state.current_view ≠ c.current_view then
          (hook new_state,
           tm ++ [(block.view,
             TaskKind.vote_gather c.self_committee block tally_settings)])
        else
          (new_state,
           tm ++ [(block.view, TaskKind.proposal_stream_continue block.view)])
      | none => (c, tm)
    let tm2 :=
      if afterReceive.1.is_next_leader then
        afterReceive.2 ++ [(block.view,
          TaskKind.leader_vote_gather {c.id} block leader_tally_settings)]
      else afterReceive.2
    (afterReceive.1, none, tm2)

/-- Embedding of `CarnotConsensus::process_view_change`
(`consensus/src/lib.rs` lines 600-638): cancel the tasks of the previous
view, then push the local-timeout timer and the timeout-QC listen keyed by
the current view, the block gather keyed by (and listening at) the next
view, and, for root-committee members only, the root-timeout gather. -/
def process_view_change (c : CarnotState) (prev_view : Int)
    (tm : TaskManager) : TaskManager :=
  let current_view := c.current_view
  let tm1 := TaskManager.cancel tm prev_view
  let tm2 := tm1 ++
    [(current_view, TaskKind.local_timeout current_view),
     (current_view + 1, TaskKind.block_gather (current_view + 1)),
     (current_view, TaskKind.timeout_qc_listen current_view)]
  if c.is_member_of_root_committee then
    tm2 ++ [(current_view,
      TaskKind.root_timeout_gather c.self_committee current_view
        ⟨c.leader_super_majority_threshold, c.root_committee⟩)]
  else
    tm2

/-- The genesis block constructed in `CarnotConsensus::run`
(`consensus/src/lib.rs` lines 184-191): zero id, view 0, a standard genesis
parent QC, the well-known zero leader.  `StandardQc::genesis()` is part of
the consensus-engine crate outside src/; modelled from the spec, which
requires a parent QC view strictly below the block's view 0. -/
def genesis_block : Block :=
  { id := 0, view := 0, parent_qc := Qc.standard ⟨-1, 0⟩, leader_proof := 0 }

/-- Embedding of the bootstrap section of `CarnotConsensus::run`
(`consensus/src/lib.rs` lines 207-244): the initial `process_view_change`
from the view before genesis, the unconditional vote gather for the genesis
block (the genesis block is treated as already present), and, for the next
leader only, the leader-side vote gather that terminates in a
`ProposeBlock` event, keyed by the next view. -/
def bootstrap_tasks (c : CarnotState) : TaskManager :=
  let tally_settings : CarnotTallySettings :=
    ⟨c.super_majority_threshold, c.child_nodes⟩
  let leader_tally_settings : CarnotTallySettings :=
    ⟨c.leader_super_majority_threshold, c.root_committee⟩
  let tm1 := process_view_change c (genesis_block.view - 1) []
  let tm2 := tm1 ++ [(genesis_block.view,
    TaskKind.vote_gather c.self_committee genesis_block tally_settings)]
  if c.is_next_leader then
    tm2 ++ [(genesis_block.view + 1,
      TaskKind.leader_vote_gather {c.id} genesis_block leader_tally_settings)]
  else
    tm2

/-- Embedding of `handle_output` (`consensus/src/lib.rs` lines 773-837) as
the list of emitted network messages, each paired with `some committee` for
a unicast send and `none` for a broadcast.  The fountain encoder of the
proposal broadcast is passed in as `encode`. -/
def handle_output (encode : List Nat → List (List Nat)) (node_id : Nat) :
    Output → List (Option (Finset Nat) × NetworkMessage)
  | .send dest (.vote v) =>
    [(some dest, NetworkMessage.vote ⟨node_id, v, none⟩)]
  | .send dest (.timeout t) =>
    [(some dest, NetworkMessage.timeout ⟨node_id, t⟩)]
  | .send dest (.new_view n) =>
    [(some dest, NetworkMessage.new_view ⟨node_id, n⟩)]
  | .broadcast_proposal p =>
    (encode p.bytes).map
      (fun ch => (none, NetworkMessage.proposal_chunk ⟨ch, p.id, p.view⟩))
  | .broadcast_timeout_qc tqc =>
    [(none, NetworkMessage.timeout_qc ⟨node_id, tqc⟩)]

/-- A concrete consensus state used by the concrete evaluation theorems
below: a non-root, non-leaf, non-leader node with empty committees. -/
def sampleState : CarnotState :=
  { id := 0, current_view := 0, highest_voted_view := -1, high_qc := ⟨0, 0⟩,
    safe_blocks := [], last_view_timeout_qc := none, self_committee := ∅,
    root_committee := ∅, child_nodes := ∅, super_majority_threshold := 0,
    leader_super_majority_threshold := 0,
    is_member_of_root_committee := false,
    is_member_of_leaf_committee := false, is_next_leader := false }

/-- `sampleState` advanced to view 2. -/
def view2State : CarnotState := { sampleState with current_view := 2 }

/-- `sampleState` advanced to view 2 as a root-committee member. -/
def rootState : CarnotState :=
  { sampleState with current_view := 2, is_member_of_root_committee := true }

/-- `sampleState` advanced to view 5. -/
def view5State : CarnotState := { sampleState with current_view := 5 }

/-- `sampleState` having already voted up to view 5. -/
def votedState : CarnotState := { sampleState with highest_voted_view := 5 }

theorem foldl_max_const {v : Int} :
    ∀ xs : List Int, (∀ x ∈ xs, x = v) → xs.foldl max v = v
  | [], _ => rfl
  | x :: xs, h => by
    have hx : x = v := h x (List.mem_cons_self x xs)
    have hmax : max v x = v := by simp [hx]
    simp only [List.foldl_cons, hmax]
    exact foldl_max_const xs (fun y hy => h y (List.mem_cons_of_mem x hy))

theorem iter_max_uniform {v : Int} (l : List Int) (hne : l ≠ [])
    (h : ∀ x ∈ l, x = v) : iter_max l = some v := by
  cases l with
  | nil => exact absurd rfl hne
  | cons x xs =>
    have hx : x = v := h x (List.mem_cons_self x xs)
    subst hx
    simp only [iter_max, Option.some.injEq]
    exact foldl_max_const xs (fun y hy => h y (List.mem_cons_of_mem x hy))

theorem foldl_pick_mem {α : Type} (key : α → Int) :
    ∀ (xs : List α) (x : α),
      xs.foldl (fun a b => if key a ≤ key b then b else a) x ∈ x :: xs
  | [], x => List.mem_cons_self x []
  | y :: ys, x => by
    simp only [List.foldl_cons]
    have ih := foldl_pick_mem key ys (if key x ≤ key y then y else x)
    rcases List.mem_cons.mp ih with heq | hmem
    · rw [heq]
      by_cases hxy : key x ≤ key y
      · simp only [if_pos hxy]
        exact List.mem_cons_of_mem x (List.mem_cons_self y ys)
      · simp only [if_neg hxy]
        exact List.mem_cons_self x (y :: ys)
    · exact List.mem_cons_of_mem x (List.mem_cons_of_mem y hmem)

theorem foldl_pick_le {α : Type} (key : α → Int) :
    ∀ (xs : List α) (x : α), ∀ b ∈ x :: xs,
      key b ≤ key (xs.foldl (fun a b => if key a ≤ key b then b else a) x) := by
  intro xs
  induction xs with
  | nil =>
    intro x b hb
    simp only [List.foldl_nil]
    rcases List.mem_cons.mp hb with heq | hmem
    · subst heq; exact le_refl _
    · exact absurd hmem (List.not_mem_nil b)
  | cons y ys ih =>
    intro x b hb
    simp only [List.foldl_cons]
    have hxle : key x ≤ key (if key x ≤ key y then y else x) := by
      by_cases hxy : key x ≤ key y
      · simpa [if_pos hxy] using hxy
      · simp [if_neg hxy]
    have hyle : key y ≤ key (if key x ≤ key y then y else x) := by
      by_cases hxy : key x ≤ key y
      · simp [if_pos hxy]
      · simpa [if_neg hxy] using le_of_not_le hxy
    rcases List.mem_cons.mp hb with heq | hmem
    · rw [heq]
      exact le_trans hxle
        (ih (if key x ≤ key y then y else x) _
          (List.mem_cons_self _ ys))
    · rcases List.mem_cons.mp hmem with heq2 | hmem2
      · rw [heq2]
        exact le_trans hyle
          (ih (if key x ≤ key y then y else x) _
            (List.mem_cons_self _ ys))
      · exact ih (if key x ≤ key y then y else x) b
          (List.mem_cons_of_mem _ hmem2)

theorem maxByKeyLast_eq_some {α : Type} (key : α → Int) (l : List α)
    (hne : l ≠ []) :
    ∃ a, maxByKeyLast key l = some a ∧ a ∈ l ∧ ∀ b ∈ l, key b ≤ key a := by
  cases l with
  | nil => exact absurd rfl hne
  | cons x xs =>
    exact ⟨_, rfl, foldl_pick_mem key xs x, foldl_pick_le key xs x⟩

theorem tally_loop_drop (settings : CarnotTallySettings) (block : Block)
    (v : VoteMsg)
    (hv : v.vote.view ≠ block.view ∨ v.vote.block ≠ block.id ∨
      v.voter ∉ settings.participating_nodes) :
    ∀ (pre rest : List VoteMsg) (seen : Finset Nat) (outcome : Finset Vote),
      tally_loop settings block seen outcome (pre ++ v :: rest) =
        tally_loop settings block seen outcome (pre ++ rest) := by
  intro pre
  induction pre with
  | nil =>
    intro rest seen outcome
    simp only [List.nil_append, tally_loop]
    by_cases h1 : v.vote.view ≠ block.view ∨ v.vote.block ≠ block.id
    · rw [if_pos h1]
    · have h3 : v.voter ∉ settings.participating_nodes := by
        rcases hv with h | h | h
        · exact absurd (Or.inl h) h1
        · exact absurd (Or.inr h) h1
        · exact h
      rw [if_neg h1, if_pos h3]
  | cons x pre ih =>
    intro rest seen outcome
    simp only [List.cons_append, tally_loop]
    split_ifs <;> first | rfl | exact ih rest _ _

theorem tally_loop_outcome (settings : CarnotTallySettings) (block : Block) :
    ∀ (votes : List VoteMsg) (seen : Finset Nat) (outcome : Finset Vote)
      (qc : Qc) (res : Finset Vote),
      (∀ vt ∈ outcome, vt.view = block.view ∧ vt.block = block.id) →
      tally_loop settings block seen outcome votes = .ok (qc, res) →
      ∀ vt ∈ res, vt.view = block.view ∧ vt.block = block.id := by
  intro votes
  induction votes with
  | nil =>
    intro seen outcome qc res hinv h
    simp only [tally_loop] at h
    exact Except.noConfusion h
  | cons v rest ih =>
    intro seen outcome qc res hinv h
    simp only [tally_loop] at h
    by_cases h1 : v.vote.view ≠ block.view ∨ v.vote.block ≠ block.id
    · rw [if_pos h1] at h
      exact ih seen outcome qc res hinv h
    · rw [if_neg h1] at h
      push_neg at h1
      by_cases h2 : v.voter ∉ settings.participating_nodes
      · rw [if_pos h2] at h
        exact ih seen outcome qc res hinv h
      · rw [if_neg h2] at h
        have hinv2 : ∀ vt ∈ insert v.vote outcome,
            vt.view = block.view ∧ vt.block = block.id := by
          intro vt hvt
          rcases Finset.mem_insert.mp hvt with heq | hvt2
          · subst heq; exact ⟨h1.1, h1.2⟩
          · exact hinv vt hvt2
        by_cases h3 : settings.threshold ≤ (insert v.voter seen).card
        · rw [if_pos h3] at h
          simp only [Except.ok.injEq, Prod.mk.injEq] at h
          rw [← h.2]
          exact hinv2
        · rw [if_neg h3] at h
          exact ih _ _ qc res hinv2 h

/-- C1: evaluation of the simulation accumulator `Tally::tally_by` at the
failing input — a fresh cache, view 0, threshold 1, a single message.  The
unique-sender count for the view has reached 1, so the claim (and the spec
contract) requires `Some` with the message in the returned set; the code
returns `None` and the accumulator for the view stays empty, because
`entry(view).and_modify(..).or_default()` never inserts the first message
of a view. -/
theorem tally_by_first_message_lost :
    Tally.tally_by ([] : TallyCache VoteMsg) 0 ⟨0, ⟨0, 0⟩, none⟩ 1 =
      (none, [(0, (∅ : Finset VoteMsg))]) := by decide

/-- C4 counterexample: in the simulation `Tally::tally_by`, three messages
that all carry the same voter (voter 0) but different vote bodies reach a
threshold of 2 — the second and third same-voter messages each advance the
count, contradicting the claim that a message from an already-counted
sender never advances the count. -/
theorem tally_by_same_voter_reaches_threshold :
    (Tally.tally_by
      (Tally.tally_by
        (Tally.tally_by ([] : TallyCache VoteMsg) 0 ⟨0, ⟨0, 0⟩, none⟩ 2).2
        0 ⟨0, ⟨0, 1⟩, none⟩ 2).2
      0 ⟨0, ⟨0, 2⟩, none⟩ 2).1 =
      some (insert ⟨0, ⟨0, 2⟩, none⟩ {⟨0, ⟨0, 1⟩, none⟩}) ∧
    (⟨0, ⟨0, 1⟩, none⟩ : VoteMsg).voter = (⟨0, ⟨0, 2⟩, none⟩ : VoteMsg).voter :=
  ⟨rfl, rfl⟩

/-- C4 (amended): in the production vote tally (`CarnotTally::tally`),
progress toward the threshold is measured by the number of distinct
voters — a message whose voter is already counted in `seen` leaves the
voter set, and hence the count toward the threshold, unchanged (only the
outcome set may gain the new vote body), even when the two message bodies
differ.  In the simulation `Tally::tally_by` uniqueness is keyed by the
whole message instead (see the counterexample). -/
theorem carnot_tally_duplicate_voter_no_progress
    (settings : CarnotTallySettings) (block : Block) (seen : Finset Nat)
    (outcome : Finset Vote) (v : VoteMsg) (rest : List VoteMsg)
    (hmem : v.voter ∈ seen) (hcard : seen.card < settings.threshold) :
    tally_loop settings block seen outcome (v :: rest) =
      tally_loop settings block seen
        (if v.vote.view = block.view ∧ v.vote.block = block.id ∧
            v.voter ∈ settings.participating_nodes
         then insert v.vote outcome else outcome) rest := by
  have hins : insert v.voter seen = seen := Finset.insert_eq_self.mpr hmem
  simp only [tally_loop, hins]
  by_cases h1 : v.vote.view ≠ block.view ∨ v.vote.block ≠ block.id
  · rw [if_pos h1, if_neg]
    intro hc
    rcases h1 with h | h
    · exact h hc.1
    · exact h hc.2.1
  · rw [if_neg h1]
    push_neg at h1
    by_cases h2 : v.voter ∉ settings.participating_nodes
    · rw [if_pos h2, if_neg]
      intro hc
      exact h2 hc.2.2
    · rw [if_neg h2, if_neg (by omega : ¬ settings.threshold ≤ seen.card),
        if_pos ⟨h1.1, h1.2, not_not.mp h2⟩]

/-- C4 witness: a concrete duplicate-voter step — voter 0 is already in the
seen set, the threshold is 2, and processing a second message by voter 0
with a different vote body continues the loop with the same seen set. -/
theorem carnot_tally_duplicate_voter_no_progress_witness :
    (0 : Nat) ∈ ({0} : Finset Nat) ∧ ({0} : Finset Nat).card < 2 ∧
    tally_loop ⟨2, {0, 1}⟩ ⟨1, 0, Qc.standard ⟨-1, 0⟩, 0⟩ {0} ∅
        [⟨0, ⟨0, 1⟩, none⟩] =
      tally_loop ⟨2, {0, 1}⟩ ⟨1, 0, Qc.standard ⟨-1, 0⟩, 0⟩ {0}
        (if (⟨0, ⟨0, 1⟩, none⟩ : VoteMsg).vote.view =
              (⟨1, 0, Qc.standard ⟨-1, 0⟩, 0⟩ : Block).view ∧
            (⟨0, ⟨0, 1⟩, none⟩ : VoteMsg).vote.block =
              (⟨1, 0, Qc.standard ⟨-1, 0⟩, 0⟩ : Block).id ∧
            (⟨0, ⟨0, 1⟩, none⟩ : VoteMsg).voter ∈
              ({0, 1} : Finset Nat)
         then insert (⟨0, ⟨0, 1⟩, none⟩ : VoteMsg).vote ∅ else ∅) [] :=
  ⟨by decide, by decide,
    carnot_tally_duplicate_voter_no_progress ⟨2, {0, 1}⟩
      ⟨1, 0, Qc.standard ⟨-1, 0⟩, 0⟩ {0} ∅ ⟨0, ⟨0, 1⟩, none⟩ []
      (by decide) (by decide)⟩

/-- C5: a vote whose view differs from the subject block's view, whose
block id differs from the subject block's id, or whose voter is not in the
participating set is silently dropped by `CarnotTally::tally`: removing it
from the vote stream changes nothing — it contributes nothing to the count,
never reaches the outcome, and causes no error. -/
theorem carnot_tally_invalid_vote_dropped (settings : CarnotTallySettings)
    (block : Block) (v : VoteMsg) (pre rest : List VoteMsg)
    (hv : v.vote.view ≠ block.view ∨ v.vote.block ≠ block.id ∨
      v.voter ∉ settings.participating_nodes) :
    CarnotTally.tally settings block (pre ++ v :: rest) =
      CarnotTally.tally settings block (pre ++ rest) := by
  unfold CarnotTally.tally
  by_cases h0 : settings.threshold = 0
  · rw [if_pos h0, if_pos h0]
  · rw [if_neg h0, if_neg h0]
    exact tally_loop_drop settings block v hv pre rest ∅ ∅

/-- C5 witness: a concrete stream where a vote by non-participating voter 3
is dropped — the tally over the stream with it equals the tally over the
stream without it. -/
theorem carnot_tally_invalid_vote_dropped_witness :
    ((⟨3, ⟨0, 1⟩, none⟩ : VoteMsg).vote.view ≠
        (⟨1, 0, Qc.standard ⟨-1, 0⟩, 0⟩ : Block).view ∨
      (⟨3, ⟨0, 1⟩, none⟩ : VoteMsg).vote.block ≠
        (⟨1, 0, Qc.standard ⟨-1, 0⟩, 0⟩ : Block).id ∨
      (⟨3, ⟨0, 1⟩, none⟩ : VoteMsg).voter ∉ ({7} : Finset Nat)) ∧
    CarnotTally.tally ⟨1, {7}⟩ ⟨1, 0, Qc.standard ⟨-1, 0⟩, 0⟩
        ([] ++ ⟨3, ⟨0, 1⟩, none⟩ :: [⟨7, ⟨0, 1⟩, none⟩]) =
      CarnotTally.tally ⟨1, {7}⟩ ⟨1, 0, Qc.standard ⟨-1, 0⟩, 0⟩
        ([] ++ [⟨7, ⟨0, 1⟩, none⟩]) :=
  ⟨by decide,
    carnot_tally_invalid_vote_dropped ⟨1, {7}⟩ ⟨1, 0, Qc.standard ⟨-1, 0⟩, 0⟩
      ⟨3, ⟨0, 1⟩, none⟩ [] [⟨7, ⟨0, 1⟩, none⟩] (by decide)⟩

/-- C9 counterexample: in the simulation event builder the vote accumulator
is keyed by view only, not by block id — with a threshold of 2, a vote for
block 0 and a vote for block 1 at the same view land in the same
accumulator; the vote for block 0 both advances the count that fires while
processing the block-1 vote and appears in the returned outcome set. -/
theorem tally_by_cross_block_votes_shared :
    (Tally.tally_by
      (Tally.tally_by
        (Tally.tally_by ([] : TallyCache VoteMsg) 0 ⟨0, ⟨0, 0⟩, none⟩ 2).2
        0 ⟨1, ⟨0, 0⟩, none⟩ 2).2
      0 ⟨2, ⟨0, 1⟩, none⟩ 2).1 =
      some (insert ⟨2, ⟨0, 1⟩, none⟩ {⟨1, ⟨0, 0⟩, none⟩}) ∧
    (⟨1, ⟨0, 0⟩, none⟩ : VoteMsg).vote.block ≠
      (⟨2, ⟨0, 1⟩, none⟩ : VoteMsg).vote.block :=
  ⟨rfl, by decide⟩

/-- C9 (amended): in the production vote tally (`CarnotTally::tally`), each
tally run is bound to its subject block: every vote in a successful
outcome carries the subject block's id and view, so a vote for a distinct
block at the same view never appears in (nor counts for) another block's
tally.  In the simulation event builder votes are accumulated per view
only (see the counterexample). -/
theorem carnot_tally_outcome_matches_subject (settings : CarnotTallySettings)
    (block : Block) (votes : List VoteMsg) (qc : Qc) (outcome : Finset Vote)
    (h : CarnotTally.tally settings block votes = .ok (qc, outcome)) :
    ∀ vt ∈ outcome, vt.view = block.view ∧ vt.block = block.id := by
  unfold CarnotTally.tally at h
  by_cases h0 : settings.threshold = 0
  · rw [if_pos h0] at h
    simp only [Except.ok.injEq, Prod.mk.injEq] at h
    rw [← h.2]
    intro vt hvt
    exact absurd hvt (Finset.not_mem_empty vt)
  · rw [if_neg h0] at h
    exact tally_loop_outcome settings block votes ∅ ∅ qc outcome
      (fun vt hvt => absurd hvt (Finset.not_mem_empty vt)) h

/-- C9 witness: a concrete successful tally for the block with id 1 at
view 0; the vote in its outcome carries exactly that view and id. -/
theorem carnot_tally_outcome_matches_subject_witness :
    (⟨0, 1⟩ : Vote).view = (⟨1, 0, Qc.standard ⟨-1, 0⟩, 0⟩ : Block).view ∧
    (⟨0, 1⟩ : Vote).block = (⟨1, 0, Qc.standard ⟨-1, 0⟩, 0⟩ : Block).id :=
  carnot_tally_outcome_matches_subject ⟨1, {7}⟩
    ⟨1, 0, Qc.standard ⟨-1, 0⟩, 0⟩ [⟨7, ⟨0, 1⟩, none⟩]
    (Qc.standard ⟨0, 1⟩) {⟨0, 1⟩} (by rfl) ⟨0, 1⟩ (by decide)

/-- C2 counterexample: `process_root_timeout` is not total on timeout sets
mixing different views — on a set holding a timeout for view 1 and one for
view 2 while the node is at view 2, the maximum view matches the current
view but the internal `assert!` that every timeout carries the current
view fails, i.e. the handler panics instead of completing. -/
theorem process_root_timeout_mixed_views_panics :
    process_root_timeout view2State [⟨1, ⟨0, 0⟩, 0⟩, ⟨2, ⟨0, 0⟩, 0⟩] =
      .error .assertion_failed := by rfl

/-- C2 (amended): `process_root_timeout` completes without panicking for
every set of timeouts whose elements all carry one common view (including
the empty set), and it never changes the consensus state; only a set mixing
different views whose maximum equals the current view trips the internal
assertion (see the counterexample). -/
theorem process_root_timeout_uniform_total (c : CarnotState)
    (timeouts : List Timeout)
    (huni : ∀ t1 ∈ timeouts, ∀ t2 ∈ timeouts, t1.view = t2.view) :
    ∃ out, process_root_timeout c timeouts = .ok (c, out) := by
  by_cases hg : c.current_view ≠ (iter_max (timeouts.map Timeout.view)).getD 0
  · refine ⟨none, ?_⟩
    unfold process_root_timeout
    rw [if_pos hg]
  · push_neg at hg
    have hall : ∀ t ∈ timeouts, t.view = c.current_view := by
      cases timeouts with
      | nil => intro u hu; exact absurd hu (List.not_mem_nil u)
      | cons t ts =>
        intro u hu
        have hmax : iter_max ((t :: ts).map Timeout.view) = some t.view := by
          apply iter_max_uniform _ (by simp)
          intro x hx
          obtain ⟨w, hw, rfl⟩ := List.mem_map.mp hx
          exact huni w hw t (List.mem_cons_self t ts)
        rw [hmax, Option.getD_some] at hg
        rw [huni u hu t (List.mem_cons_self t ts)]
        exact hg.symm
    obtain ⟨a, ha, hmem, hle⟩ := maxByKeyLast_eq_some StandardQc.view
      (timeouts.map Timeout.high_qc ++ [c.high_qc]) (by simp)
    refine ⟨if c.is_member_of_root_committee then
        some (Output.broadcast_timeout_qc ⟨c.current_view, a, c.id⟩)
      else none, ?_⟩
    unfold process_root_timeout
    rw [if_neg (not_not_intro hg), if_pos hall, ha]

/-- C2 witness: a two-element timeout set uniformly at view 2, fed to a
node at view 2 — the handler returns `Ok` with the state unchanged. -/
theorem process_root_timeout_uniform_total_witness :
    ∃ out, process_root_timeout view2State
        [⟨2, ⟨1, 7⟩, 4⟩, ⟨2, ⟨0, 0⟩, 5⟩] = .ok (view2State, out) :=
  process_root_timeout_uniform_total view2State
    [⟨2, ⟨1, 7⟩, 4⟩, ⟨2, ⟨0, 0⟩, 5⟩] (by decide)

/-- C3: for every non-empty timeout set uniformly at the node's current
view, `process_root_timeout` leaves the state unchanged and emits a
`BroadcastTimeoutQc` exactly when the node is a root-committee member; the
emitted `TimeoutQc` carries the current view and a high QC that is one of
the timeouts' high QCs or the local high QC and has the maximal view among
all of them. -/
theorem process_root_timeout_broadcast_spec (c : CarnotState)
    (timeouts : List Timeout) (hne : timeouts ≠ [])
    (hv : ∀ t ∈ timeouts, t.view = c.current_view) :
    ∃ hq : StandardQc,
      hq ∈ timeouts.map Timeout.high_qc ++ [c.high_qc] ∧
      (∀ q ∈ timeouts.map Timeout.high_qc ++ [c.high_qc], q.view ≤ hq.view) ∧
      process_root_timeout c timeouts =
        .ok (c,
          if c.is_member_of_root_committee then
            some (Output.broadcast_timeout_qc ⟨c.current_view, hq, c.id⟩)
          else none) := by
  have hmax : iter_max (timeouts.map Timeout.view) = some c.current_view := by
    apply iter_max_uniform
    · simpa using hne
    · intro x hx
      obtain ⟨t, ht, rfl⟩ := List.mem_map.mp hx
      exact hv t ht
  obtain ⟨a, ha, hmem, hle⟩ := maxByKeyLast_eq_some StandardQc.view
    (timeouts.map Timeout.high_qc ++ [c.high_qc]) (by simp)
  refine ⟨a, hmem, hle, ?_⟩
  unfold process_root_timeout
  rw [hmax]
  rw [if_neg (by simp)]
  rw [if_pos hv, ha]

/-- C3 witness: a root-committee node at view 2 with a single timeout at
view 2 — the handler broadcasts a `TimeoutQc` for view 2 built from a
maximal high QC, leaving the state unchanged. -/
theorem process_root_timeout_broadcast_spec_witness :
    ∃ hq : StandardQc,
      hq ∈ List.map Timeout.high_qc [⟨2, ⟨1, 7⟩, 4⟩] ++ [rootState.high_qc] ∧
      (∀ q ∈ List.map Timeout.high_qc [⟨2, ⟨1, 7⟩, 4⟩] ++
          [rootState.high_qc], q.view ≤ hq.view) ∧
      process_root_timeout rootState [⟨2, ⟨1, 7⟩, 4⟩] =
        .ok (rootState,
          if rootState.is_member_of_root_committee then
            some (Output.broadcast_timeout_qc
              ⟨rootState.current_view, hq, rootState.id⟩)
          else none) :=
  process_root_timeout_broadcast_spec rootState [⟨2, ⟨1, 7⟩, 4⟩]
    (by decide) (by decide)

/-- C6: a proposal whose header view is at most the node's highest voted
view is dropped by `process_block` — the state is returned unchanged, no
output is produced and no task is scheduled, for every overlay-update hook
and every pending task list. -/
theorem process_block_stale_view_noop (hook : CarnotState → CarnotState)
    (c : CarnotState) (block : Block) (tm : TaskManager)
    (h : block.view ≤ c.highest_voted_view) :
    process_block hook c block tm = (c, none, tm) := by
  unfold process_block
  rw [if_pos h]

/-- C6 witness: a node that has voted up to view 5 receiving a proposal at
view 3 — nothing changes. -/
theorem process_block_stale_view_noop_witness :
    process_block (fun s => s) votedState ⟨9, 3, Qc.standard ⟨2, 0⟩, 0⟩ [] =
      (votedState, none, []) :=
  process_block_stale_view_noop (fun s => s) votedState
    ⟨9, 3, Qc.standard ⟨2, 0⟩, 0⟩ [] (by decide)

/-- C7 counterexample: after advancing to view 5, `process_view_change`
does not schedule a block gather for the new current view 5 — the block
gather it pushes is keyed by, and listens at, the successor view 6. -/
theorem process_view_change_block_gather_next_view :
    ((5 : Int), TaskKind.block_gather 5) ∉ process_view_change view5State 4 [] ∧
    ((6 : Int), TaskKind.block_gather 6) ∈ process_view_change view5State 4 [] := by
  constructor
  · decide
  · decide

/-- C7 (amended): on a view change (previous view strictly below the new
current view), `process_view_change` cancels every task keyed by the
previous view and schedules, keyed by the new current view, a local-timeout
timer and a timeout-QC listen; the block gather is scheduled for the
successor view `current_view + 1`; and, starting from no pending tasks, the
root-timeout gather is scheduled exactly when the node is a root-committee
member. -/
theorem process_view_change_schedule_spec (c : CarnotState) (prev_view : Int)
    (tm : TaskManager) (h : prev_view < c.current_view) :
    (∀ t ∈ tm, t.1 = prev_view → t ∉ process_view_change c prev_view tm) ∧
    (c.current_view, TaskKind.local_timeout c.current_view) ∈
      process_view_change c prev_view tm ∧
    (c.current_view + 1, TaskKind.block_gather (c.current_view + 1)) ∈
      process_view_change c prev_view tm ∧
    (c.current_view, TaskKind.timeout_qc_listen c.current_view) ∈
      process_view_change c prev_view tm ∧
    (((c.current_view, TaskKind.root_timeout_gather c.self_committee
        c.current_view ⟨c.leader_super_majority_threshold, c.root_committee⟩) ∈
        process_view_change c prev_view []) ↔
      c.is_member_of_root_committee = true) := by
  have hne1 : prev_view ≠ c.current_view := ne_of_lt h
  have hne2 : prev_view ≠ c.current_view + 1 := by omega
  cases hb : c.is_member_of_root_committee
  · refine ⟨?_, ?_, ?_, ?_, ?_⟩
    · intro t ht hkey hc
      simp only [process_view_change, TaskManager.cancel, hb,
        Bool.false_eq_true, if_false, List.mem_append, List.mem_filter,
        List.mem_cons, List.not_mem_nil, or_false, decide_eq_true_eq] at hc
      rcases hc with ⟨-, hne⟩ | h1 | h1 | h1
      · exact hne hkey
      · rw [h1] at hkey; exact hne1 hkey.symm
      · rw [h1] at hkey; exact hne2 hkey.symm
      · rw [h1] at hkey; exact hne1 hkey.symm
    · simp [process_view_change, TaskManager.cancel, hb]
    · simp [process_view_change, TaskManager.cancel, hb]
    · simp [process_view_change, TaskManager.cancel, hb]
    · simp [process_view_change, TaskManager.cancel, hb]
  · refine ⟨?_, ?_, ?_, ?_, ?_⟩
    · intro t ht hkey hc
      simp only [process_view_change, TaskManager.cancel, hb, if_true,
        List.mem_append, List.mem_filter, List.mem_cons, List.not_mem_nil,
        or_false, decide_eq_true_eq] at hc
      rcases hc with (⟨-, hne⟩ | h1 | h1 | h1) | h1
      · exact hne hkey
      · rw [h1] at hkey; exact hne1 hkey.symm
      · rw [h1] at hkey; exact hne2 hkey.symm
      · rw [h1] at hkey; exact hne1 hkey.symm
      · rw [h1] at hkey; exact hne1 hkey.symm
    · simp [process_view_change, TaskManager.cancel, hb]
    · simp [process_view_change, TaskManager.cancel, hb]
    · simp [process_view_change, TaskManager.cancel, hb]
    · simp [process_view_change, TaskManager.cancel, hb]

/-- C7 witness: a root-committee node advancing from view 1 to view 2 with
one stale view-1 task pending — the stale task is gone, the timer and
timeout-QC listen are keyed by view 2, the block gather by view 3, and the
root-timeout gather is present. -/
theorem process_view_change_schedule_spec_witness :
    (∀ t ∈ ([((1 : Int), TaskKind.local_timeout 1)] : TaskManager),
      t.1 = 1 → t ∉ process_view_change rootState 1
        [((1 : Int), TaskKind.local_timeout 1)]) ∧
    (rootState.current_view, TaskKind.local_timeout rootState.current_view) ∈
      process_view_change rootState 1 [((1 : Int), TaskKind.local_timeout 1)] ∧
    (rootState.current_view + 1,
        TaskKind.block_gather (rootState.current_view + 1)) ∈
      process_view_change rootState 1 [((1 : Int), TaskKind.local_timeout 1)] ∧
    (rootState.current_view,
        TaskKind.timeout_qc_listen rootState.current_view) ∈
      process_view_change rootState 1 [((1 : Int), TaskKind.local_timeout 1)] ∧
    (((rootState.current_view, TaskKind.root_timeout_gather
        rootState.self_committee rootState.current_view
        ⟨rootState.leader_super_majority_threshold, rootState.root_committee⟩) ∈
        process_view_change rootState 1 []) ↔
      rootState.is_member_of_root_committee = true) :=
  process_view_change_schedule_spec rootState 1
    [((1 : Int), TaskKind.local_timeout 1)] (by decide)

/-- C8 counterexample: at bootstrap the vote gather for the genesis block
is scheduled even for a node that is not a leaf-committee member — the
scheduling is unconditional, not gated on leaf membership as claimed. -/
theorem bootstrap_vote_gather_unconditional :
    sampleState.is_member_of_leaf_committee = false ∧
    (genesis_block.view, TaskKind.vote_gather sampleState.self_committee
      genesis_block
      ⟨sampleState.super_majority_threshold, sampleState.child_nodes⟩) ∈
      bootstrap_tasks sampleState := by
  constructor
  · rfl
  · decide

/-- C8 (amended): at initialization the orchestrator treats the genesis
block as already present and schedules a vote gather for it
unconditionally — for every node, leaf member or not — and schedules the
leader-side vote gather (the task that terminates in a `ProposeBlock`
event), keyed by the next view, exactly when the node is the next
leader. -/
theorem bootstrap_tasks_spec (c : CarnotState) :
    (genesis_block.view, TaskKind.vote_gather c.self_committee genesis_block
      ⟨c.super_majority_threshold, c.child_nodes⟩) ∈ bootstrap_tasks c ∧
    (((genesis_block.view + 1, TaskKind.leader_vote_gather {c.id}
        genesis_block
        ⟨c.leader_super_majority_threshold, c.root_committee⟩) ∈
        bootstrap_tasks c) ↔ c.is_next_leader = true) := by
  cases hr : c.is_member_of_root_committee <;>
    cases hl : c.is_next_leader <;>
    exact ⟨by simp [bootstrap_tasks, process_view_change,
        TaskManager.cancel, hr, hl],
      by simp [bootstrap_tasks, process_view_change,
        TaskManager.cancel, hr, hl]⟩

/-- C10: every `VoteMsg` emitted by the output dispatcher carries
`qc = None`, for every payload, recipient and output variant. -/
theorem handle_output_vote_qc_none (encode : List Nat → List (List Nat))
    (node_id : Nat) (out : Output) (dest : Option (Finset Nat)) (m : VoteMsg)
    (h : (dest, NetworkMessage.vote m) ∈ handle_output encode node_id out) :
    m.qc = none := by
  cases out with
  | send d payload =>
    cases payload with
    | vote v =>
      simp only [handle_output, List.mem_singleton, Prod.mk.injEq,
        NetworkMessage.vote.injEq] at h
      rw [h.2]
    | timeout t => simp [handle_output] at h
    | new_view n => simp [handle_output] at h
  | broadcast_timeout_qc tqc => simp [handle_output] at h
  | broadcast_proposal p => simp [handle_output] at h

/-- C10 witness: dispatching a vote send for node 5 to committee `{1}`
produces a `VoteMsg` whose qc field is `None`. -/
theorem handle_output_vote_qc_none_witness :
    ((some ({1} : Finset Nat), NetworkMessage.vote ⟨5, ⟨0, 0⟩, none⟩) ∈
      handle_output (fun b => [b]) 5
        (Output.send {1} (Payload.vote ⟨0, 0⟩))) ∧
    (⟨5, ⟨0, 0⟩, none⟩ : VoteMsg).qc = none :=
  ⟨by decide, handle_output_vote_qc_none (fun b => [b]) 5
    (Output.send {1} (Payload.vote ⟨0, 0⟩)) (some {1}) ⟨5, ⟨0, 0⟩, none⟩
    (by decide)⟩
